import Mathlib

/-!
# Verification of the MCP connection/session manager

A shallow embedding of `ali_agentic_adk_python/extension/mcp`
(`connection.py`, `config.py`, `tool.py`) together with proofs about the
embedded operations.

Modelling conventions:
* Python `dict[str, V]` becomes an association list `List (String × V)`
  with Python's insertion-order / overwrite-in-place semantics
  (`dictInsert`).
* Fallible Python code returns `Except PyErr`.
* `await`-recursion is bounded by an explicit `fuel : Nat` modelling the
  Python interpreter's recursion limit: running out of fuel is
  `PyErr.recursionError`, exactly what CPython raises when the call stack
  overflows.
* Environment interaction (transport open, protocol handshake, the
  server's `list_tools` / `call_tool` answers) is an oracle `ConnEnv`.
* Ghost fields (`transportOpens`, `initCalls`, `listCalls`, `callLog`)
  instrument the state so that "how many times did the handshake run"
  style properties can be stated; the real Python state never reads them.
-/

namespace AdkMcp

/-- A Python scalar value, enough to express concrete tool arguments such
as `{"x": 1}`. -/
inductive PyValue where
  | vInt (i : Int)
  | vStr (s : String)
  | vBool (b : Bool)
  deriving DecidableEq, Repr

/-- A Python keyword-argument dictionary `dict[str, object]`. -/
abbrev Args := List (String × PyValue)

/-- Embedding of `mcp.types.Implementation`: the server identity reported by the
protocol handshake. -/
structure Implementation where
  name : String
  version : String
  deriving DecidableEq, Repr

/-- Embedding of `mcp.types.Tool`: a tool schema advertised by a server. The schema
body is kept opaque (a string), since no operation in this module
inspects it. -/
structure Tool where
  name : String
  inputSchema : String
  deriving DecidableEq, Repr

/-- Embedding of `mcp.types.CallToolResult`: the raw result of a tool invocation. -/
structure CallToolResult where
  isError : Bool
  text : Option String
  deriving DecidableEq, Repr

/-- The Python exceptions this subsystem can raise. -/
inductive PyErr where
  | recursionError
  | runtimeError (msg : String)
  | valueError (msg : String)
  | toolNotFound (name : String)
  deriving DecidableEq, Repr

/-- Python dict assignment `d[k] = v`: overwrite in place when the key
exists (keeping its position), append otherwise. -/
def dictInsert (d : List (String × α)) (k : String) (v : α) : List (String × α) :=
  if d.any (fun p => p.1 = k) then
    d.map (fun p => if p.1 = k then (k, v) else p)
  else
    d ++ [(k, v)]

/-- Python dict lookup `d.get(k)`. -/
def dictGet (d : List (String × α)) (k : String) : Option α :=
  (d.find? (fun p => p.1 = k)).map (·.2)

/-- The keys of a Python dict, in insertion order. -/
def dictKeys (d : List (String × α)) : List String :=
  d.map (·.1)

/-- Embedding of `{tool.name: tool for tool in ts}`: a Python dict comprehension. -/
def buildToolDict (ts : List Tool) : List (String × Tool) :=
  ts.foldl (fun d t => dictInsert d t.name t) []

/-- Python truthiness of an optional string: `None` and `""` are falsy. -/
def truthyStr : Option String → Bool
  | none => false
  | some s => !s.isEmpty

/-! ## Decimal rendering of the dedup suffix

Python renders the dedup counter with `f"{candidate}#{suffix}"`, i.e. the
standard decimal representation of the suffix. `decRevDigits` computes the
little-endian decimal digit list (with explicit fuel so that the
definition is structural and kernel-reducible), `natDecimal` renders it.
-/

/-- Little-endian decimal digits of `n` (fuel-bounded; `fuel ≥ n`
suffices). `decRevDigits fuel 0 = []`. -/
def decRevDigits : Nat → Nat → List Nat
  | 0, _ => []
  | _ + 1, 0 => []
  | fuel + 1, n + 1 => ((n + 1) % 10) :: decRevDigits fuel ((n + 1) / 10)

/-- The decimal digit characters. -/
def decDigitChar (d : Nat) : Char :=
  if d = 0 then '0' else if d = 1 then '1' else if d = 2 then '2'
  else if d = 3 then '3' else if d = 4 then '4' else if d = 5 then '5'
  else if d = 6 then '6' else if d = 7 then '7' else if d = 8 then '8'
  else '9'

/-- Little-endian decimal digits of `n`, with `0` rendered as `[0]` (a
number always prints at least one digit). -/
def decDigitsOf (n : Nat) : List Nat :=
  if n = 0 then [0] else decRevDigits n n

/-- The decimal string representation of a natural number (what Python's
`f"{n}"` prints). -/
def natDecimal (n : Nat) : String :=
  String.mk (((decDigitsOf n).reverse).map decDigitChar)

/-- Reconstruct a number from its little-endian decimal digits. -/
def ofRevDigits : List Nat → Nat
  | [] => 0
  | d :: ds => d + 10 * ofRevDigits ds

/-! ## `McpConnection` (connection.py)

The mutable fields of a `McpConnection`, plus ghost instrumentation.
The config reduces to its `namespace` field: the transport parameters are
consumed only by `_open_transport`, whose outcome the oracle `ConnEnv`
supplies directly. -/

/-- The `namespace` field shared by every `McpServerConfig` variant. -/
structure ConnConfig where
  namespace_ : Option String
  deriving DecidableEq, Repr

/-- The mutable state of one `McpConnection`.
`stackEntered` = `_stack_entered`, `sessionOpen` = `_session is not None`,
`serverInfo` = `_server_info`, `tools` = `_tools`, `connected` =
`_connected`. The remaining fields are ghost counters/logs. -/
structure ConnState where
  stackEntered : Bool
  sessionOpen : Bool
  serverInfo : Option Implementation
  tools : List (String × Tool)
  connected : Bool
  transportOpens : Nat
  initCalls : Nat
  listCalls : Nat
  callLog : List (String × Args)
  deriving DecidableEq, Repr

/-- The state of a freshly constructed `McpConnection`. -/
def ConnState.fresh : ConnState :=
  { stackEntered := false, sessionOpen := false, serverInfo := none,
    tools := [], connected := false,
    transportOpens := 0, initCalls := 0, listCalls := 0, callLog := [] }

/-- Oracle for the server/transport behaviour seen by one connection:
the outcome of `_open_transport`, of `session.initialize()` (the protocol
handshake), of `session.list_tools()`, and of `session.call_tool`. -/
structure ConnEnv where
  transport : Except PyErr Unit
  handshake : Except PyErr Implementation
  listTools : Except PyErr (List Tool)
  callToolFn : String → Args → Except PyErr CallToolResult

namespace McpConnection

/-- Embedding of `McpConnection.close`: tear down the connection. `AsyncExitStack.aclose`
(release of the transport resources) is modelled as infallible, so `close`
always succeeds; it clears session, server identity, tool cache and the
connected flag, and is a no-op source of state beyond that (ghost fields
are preserved). -/
def close (s : ConnState) : Except PyErr Unit × ConnState :=
  (.ok (), { s with stackEntered := false, sessionOpen := false,
                    serverInfo := none, tools := [], connected := false })

/-- The body of `refresh_tools` after `_require_session` returned: perform
`session.list_tools()` (bumping the ghost attempt counter) and on success
replace `_tools` with `{tool.name: tool for tool in response.tools}`. -/
def listToolsStep (env : ConnEnv) (s : ConnState) : Except PyErr Unit × ConnState :=
  let s' := { s with listCalls := s.listCalls + 1 }
  match env.listTools with
  | .error e => (.error e, s')
  | .ok ts => (.ok (), { s' with tools := buildToolDict ts })

/-- Embedding of `McpConnection.connect`, fuel-bounded. Faithful to the source: when
not yet connected it enters the exit stack, opens the transport, creates a
session, runs the handshake, stores the server identity, and then calls
`refresh_tools()` — whose `_require_session` re-enters `connect` *before*
`_connected` has been set, which is the recursive call below (`fuel`
models the interpreter's recursion limit; exhausting it raises
`RecursionError`). Any exception in the body is caught, `close()` runs,
and the exception is re-raised. -/
def connect (env : ConnEnv) : Nat → ConnState → Except PyErr Unit × ConnState
  | fuel, s =>
    if s.connected then (.ok (), s)
    else
      match fuel with
      | 0 => (.error .recursionError, s)
      | fuel + 1 =>
        let s1 := { s with stackEntered := true }
        match env.transport with
        | .error e => (.error e, (close s1).2)
        | .ok _ =>
          let s2 := { s1 with sessionOpen := true,
                              transportOpens := s1.transportOpens + 1 }
          match env.handshake with
          | .error e => (.error e, (close s2).2)
          | .ok info =>
            let s3 := { s2 with serverInfo := some info,
                                initCalls := s2.initCalls + 1 }
            match connect env fuel s3 with
            | (.error e, s4) => (.error e, (close s4).2)
            | (.ok _, s4) =>
              if s4.sessionOpen then
                match listToolsStep env s4 with
                | (.error e, s5) => (.error e, (close s5).2)
                | (.ok _, s5) => (.ok (), { s5 with connected := true })
              else
                (.error (.runtimeError
                  "MCP session is not available after attempting to connect."),
                 (close s4).2)

/-- Embedding of `McpConnection._require_session`: connect (on demand), then return the
session or raise if it is still missing. -/
def requireSession (env : ConnEnv) (fuel : Nat) (s : ConnState) :
    Except PyErr Unit × ConnState :=
  match connect env fuel s with
  | (.error e, s') => (.error e, s')
  | (.ok _, s') =>
    if s'.sessionOpen then (.ok (), s')
    else (.error (.runtimeError
      "MCP session is not available after attempting to connect."), s')

/-- Embedding of `McpConnection.refresh_tools`: fetch the latest tool metadata and
return a copy of the updated cache. -/
def refresh_tools (env : ConnEnv) (fuel : Nat) (s : ConnState) :
    Except PyErr (List (String × Tool)) × ConnState :=
  match requireSession env fuel s with
  | (.error e, s') => (.error e, s')
  | (.ok _, s') =>
    match listToolsStep env s' with
    | (.error e, s'') => (.error e, s'')
    | (.ok _, s'') => (.ok s''.tools, s'')

/-- Embedding of `McpConnection.call_tool`: connect on demand, then forward the call
under the invocation lock. The ghost `callLog` records each attempt the
session actually receives. -/
def call_tool (env : ConnEnv) (fuel : Nat) (s : ConnState)
    (toolName : String) (args : Args) : Except PyErr CallToolResult × ConnState :=
  match requireSession env fuel s with
  | (.error e, s') => (.error e, s')
  | (.ok _, s') =>
    let s'' := { s' with callLog := s'.callLog ++ [(toolName, args)] }
    match env.callToolFn toolName args with
    | .error e => (.error e, s'')
    | .ok r => (.ok r, s'')

/-- Embedding of `McpConnection.namespace`: the explicit config namespace when truthy,
else the server-reported name, else `None`. -/
def namespaceOf (cfg : ConnConfig) (s : ConnState) : Option String :=
  if truthyStr cfg.namespace_ then cfg.namespace_
  else
    match s.serverInfo with
    | some info => some info.name
    | none => none

end McpConnection

/-! ## `McpSessionManager` (connection.py) -/

/-- One managed connection: its config, its environment oracle, and its
mutable state. -/
structure Conn where
  cfg : ConnConfig
  env : ConnEnv
  st : ConnState

/-- Embedding of `McpToolDescriptor` (tool.py): metadata binding a globally-unique
exposed name to a `(connection, original name)` pair. The owning
connection is held by reference, modelled as its index in the manager's
connection list. -/
structure McpToolDescriptor where
  exposed_name : String
  original_name : String
  connection : Nat
  tool : Tool
  server_info : Option Implementation
  deriving DecidableEq, Repr

/-- The mutable state of a `McpSessionManager`. -/
structure MgrState where
  connections : List Conn
  name_separator : String
  tool_registry : List (String × McpToolDescriptor)
  started : Bool

namespace McpSessionManager

/-- The search loop of `_dedupe_name`: try `candidate#suffix`,
`candidate#(suffix+1)`, … until a name not in `taken` is found. The
Python loop is unbounded (`while True`); the explicit fuel is only there
to make the definition total, and `dedupeAux_finds_free` below shows that
`taken.length + 1` attempts always suffice, so the out-of-fuel branch is
never reached from `dedupe_name`. -/
def dedupeAux (candidate : String) (taken : List String) : Nat → Nat → String
  | 0, suffix => candidate ++ "#" ++ natDecimal suffix
  | fuel + 1, suffix =>
    let updated := candidate ++ "#" ++ natDecimal suffix
    if updated ∈ taken then dedupeAux candidate taken fuel (suffix + 1)
    else updated

/-- Embedding of `McpSessionManager._dedupe_name`: return `candidate` unchanged when it
is not taken, otherwise append `#1`, `#2`, … until unique. -/
def dedupe_name (candidate : String) (taken : List String) : String :=
  if candidate ∈ taken then dedupeAux candidate taken (taken.length + 1) 1
  else candidate

/-- Embedding of `McpSessionManager._compose_name`: prefix the tool name with
`namespace + separator` when the namespace is truthy. -/
def compose_name (sep : String) (ns : Option String) (toolName : String) : String :=
  if truthyStr ns then ns.getD "" ++ sep ++ toolName
  else toolName

/-- One iteration of the inner loop of `_rebuild_registry`: compose the
base name for `(original_name, tool)`, dedupe it against the names taken
so far, store the descriptor under the unique name and mark the name
taken. -/
def regInsertTool (sep : String) (ns : Option String) (cidx : Nat)
    (si : Option Implementation)
    (acc : List (String × McpToolDescriptor) × List String)
    (kv : String × Tool) : List (String × McpToolDescriptor) × List String :=
  let base := compose_name sep ns kv.1
  let uniq := dedupe_name base acc.2
  (dictInsert acc.1 uniq
    { exposed_name := uniq, original_name := kv.1, connection := cidx,
      tool := kv.2, server_info := si },
   acc.2 ++ [uniq])

/-- The outer loop of `_rebuild_registry`: process all cached tools of one
connection, in insertion order. -/
def regInsertConn (sep : String)
    (acc : List (String × McpToolDescriptor) × List String)
    (ic : Nat × Conn) : List (String × McpToolDescriptor) × List String :=
  ic.2.st.tools.foldl
    (regInsertTool sep (McpConnection.namespaceOf ic.2.cfg ic.2.st) ic.1
      ic.2.st.serverInfo) acc

/-- Embedding of `McpSessionManager._rebuild_registry`: build a fresh registry from all
connections' cached tools and swap it in wholesale. -/
def rebuild_registry (m : MgrState) : MgrState :=
  { m with tool_registry :=
      (m.connections.enum.foldl (regInsertConn m.name_separator) ([], [])).1 }

/-- The connect loop inside `start`: connect each connection in order,
stopping at the first failure (whose partially-updated connection list is
returned alongside the error). -/
def connectAll (fuel : Nat) : List Conn → Except PyErr Unit × List Conn
  | [] => (.ok (), [])
  | c :: rest =>
    match McpConnection.connect c.env fuel c.st with
    | (.error e, st') => (.error e, { c with st := st' } :: rest)
    | (.ok _, st') =>
      match connectAll fuel rest with
      | (r, rest') => (r, { c with st := st' } :: rest')

/-- Embedding of `McpSessionManager._shutdown_connections`: close every connection,
best-effort (`close` failures are swallowed; in this model `close` is
infallible anyway). -/
def shutdown_connections (cs : List Conn) : List Conn :=
  cs.map (fun c => { c with st := (McpConnection.close c.st).2 })

/-- Embedding of `McpSessionManager.start`: no-op when already started; otherwise
connect every connection, and on any failure shut all connections down
before re-raising. Only after every connect succeeded is the registry
rebuilt and the manager marked started. -/
def start (fuel : Nat) (m : MgrState) : Except PyErr Unit × MgrState :=
  if m.started then (.ok (), m)
  else
    match connectAll fuel m.connections with
    | (.error e, cs) => (.error e, { m with connections := shutdown_connections cs })
    | (.ok _, cs) =>
      let m' := rebuild_registry { m with connections := cs }
      (.ok (), { m' with started := true })

/-- Embedding of `McpSessionManager.stop`: close every connection, clear the registry,
reset the started flag. -/
def stop (m : MgrState) : MgrState :=
  { m with connections := shutdown_connections m.connections,
           tool_registry := [], started := false }

/-- The refresh loop inside `refresh`, exactly as written in the source:
`for connection in self._connections: await connection.refresh_tools()` —
the first failure propagates immediately and the remaining connections
are not attempted. -/
def refreshAll (fuel : Nat) : List Conn → Except PyErr Unit × List Conn
  | [] => (.ok (), [])
  | c :: rest =>
    match McpConnection.refresh_tools c.env fuel c.st with
    | (.error e, st') => (.error e, { c with st := st' } :: rest)
    | (.ok _, st') =>
      match refreshAll fuel rest with
      | (r, rest') => (r, { c with st := st' } :: rest')

/-- Embedding of `McpSessionManager.refresh`: refresh tool metadata across all
connections, then rebuild the registry (only reached when every
connection refreshed without error). -/
def refresh (fuel : Nat) (m : MgrState) : Except PyErr Unit × MgrState :=
  match refreshAll fuel m.connections with
  | (.error e, cs) => (.error e, { m with connections := cs })
  | (.ok _, cs) => (.ok (), rebuild_registry { m with connections := cs })

/-- Embedding of `McpSessionManager.descriptors` (value view): the registry contents. -/
def descriptors (m : MgrState) : List (String × McpToolDescriptor) :=
  m.tool_registry

/-- Modelled from the spec: `McpSessionManager.invoke_tool` is absent from
`connection.py` under `src/` — only the package's tests and the
`__init__` re-exports reference it. Spec §4.2: "resolves the exposed name
against the current registry (optionally ensuring the manager is started
first) and delegates to the owning Connection's `call_tool` with the
descriptor's original name. Raises a not-found error (§7, carrying the
requested name) when the name is absent from the registry." -/
def invoke_tool (fuel : Nat) (m : MgrState) (exposed : String) (args : Args)
    (ensureStarted : Bool := true) : Except PyErr CallToolResult × MgrState :=
  match (if ensureStarted && !m.started then start fuel m else (.ok (), m)) with
  | (.error e, m') => (.error e, m')
  | (.ok _, m') =>
    match dictGet m'.tool_registry exposed with
    | none => (.error (.toolNotFound exposed), m')
    | some d =>
      match m'.connections.get? d.connection with
      | none => (.error (.runtimeError "MCP connection is not available."), m')
      | some c =>
        match McpConnection.call_tool c.env fuel c.st d.original_name args with
        | (.error e, st') =>
          (.error e,
           { m' with connections := m'.connections.set d.connection { c with st := st' } })
        | (.ok r, st') =>
          (.ok r,
           { m' with connections := m'.connections.set d.connection { c with st := st' } })

end McpSessionManager

/-! ## Python dict reference semantics

The getters `McpConnection.tools` and `McpSessionManager.descriptors`
both execute `return dict(internal)`. To express that this hands out a
*fresh copy* — so that mutation of the returned dict cannot touch the
internal one — dicts are modelled with explicit references into a heap:
a reference is an index into a store of dict values. -/

/-- A heap of Python dicts; a dict reference is an index into `store`. -/
structure PyDictHeap (α : Type) where
  store : List (List (String × α))

/-- Dereference: the contents of the dict at `r`. -/
def PyDictHeap.get (h : PyDictHeap α) (r : Nat) : List (String × α) :=
  (h.store.get? r).getD []

/-- Embedding of `dict(x)`: allocate a fresh dict holding a copy of the entries of the
dict at `r`, and return the new reference. -/
def PyDictHeap.copyDict (h : PyDictHeap α) (r : Nat) : Nat × PyDictHeap α :=
  (h.store.length, ⟨h.store ++ [h.get r]⟩)

/-- Embedding of `d[k] = v` executed on the dict at reference `r`. -/
def PyDictHeap.setItem (h : PyDictHeap α) (r : Nat) (k : String) (v : α) :
    PyDictHeap α :=
  ⟨h.store.set r (dictInsert (h.get r) k v)⟩

/-- Embedding of `McpConnection.tools` under reference semantics:
`return dict(self._tools)` where `toolsRef` is the reference held in
`self._tools`. -/
def McpConnection.toolsCopy (h : PyDictHeap Tool) (toolsRef : Nat) :
    Nat × PyDictHeap Tool :=
  h.copyDict toolsRef

/-- Embedding of `McpSessionManager.descriptors` under reference semantics:
`return dict(self._tool_registry)` where `regRef` is the reference held in
`self._tool_registry`. -/
def McpSessionManager.descriptorsCopy (h : PyDictHeap McpToolDescriptor)
    (regRef : Nat) : Nat × PyDictHeap McpToolDescriptor :=
  h.copyDict regRef

/-! ## `McpSseServerConfig` (config.py) -/

/-- The fields of `McpSseServerConfig`. Timeouts are modelled as exact
rationals. -/
structure McpSseServerConfig where
  namespace_ : Option String
  url : String
  headers : Option (List (String × String))
  timeout : ℚ
  sse_read_timeout : ℚ
  deriving DecidableEq

/-- Pydantic validation of `McpSseServerConfig`: `timeout` has
`default=5.0, ge=0.1` and `sse_read_timeout` has `default=300.0, ge=1.0`;
a provided value below its `ge` bound fails validation. `none` stands for
an omitted field. -/
def McpSseServerConfig.validate (url : String)
    (timeout? sse_read_timeout? : Option ℚ) : Except String McpSseServerConfig :=
  let t := timeout?.getD 5
  let s := sse_read_timeout?.getD 300
  if t < 1/10 then
    .error "timeout: Input should be greater than or equal to 0.1"
  else if s < 1 then
    .error "sse_read_timeout: Input should be greater than or equal to 1"
  else
    .ok { namespace_ := none, url := url, headers := none,
          timeout := t, sse_read_timeout := s }

/-! ## Helper definitions and concrete fixtures -/

/-- Returns `true` exactly on `Except.error`. -/
def isErr : Except ε α → Bool
  | .error _ => true
  | .ok _ => false

/-- The dedup suffix rendering `f"{candidate}#{suffix}"`. -/
def hashName (candidate : String) (suffix : Nat) : String :=
  candidate ++ "#" ++ natDecimal suffix

/-- A stub server identity. -/
def stubInfo : Implementation := ⟨"stub", "1.0.0"⟩

def pingTool : Tool := ⟨"ping", "object"⟩

def pongTool : Tool := ⟨"pong", "object"⟩

def searchTool : Tool := ⟨"search", "object"⟩

def echoTool : Tool := ⟨"echo", "object"⟩

/-- An environment in which transport open, handshake and tool listing all
succeed. -/
def goodEnv : ConnEnv :=
  ⟨.ok (), .ok stubInfo, .ok [pingTool], fun _ _ => .ok ⟨false, some "pong"⟩⟩

/-- An environment whose `list_tools` (and `call_tool`) fail. -/
def failEnv : ConnEnv :=
  ⟨.ok (), .ok stubInfo, .error (.runtimeError "boom"),
   fun _ _ => .error (.runtimeError "boom")⟩

/-- An environment whose transport cannot be opened. -/
def badEnv : ConnEnv :=
  ⟨.error (.runtimeError "boom"), .ok stubInfo, .ok [],
   fun _ _ => .error (.runtimeError "boom")⟩

/-- The state of a connection that completed a connect: stack entered,
session open, identity cached, the given tool cache, connected. -/
def connectedState (tools : List (String × Tool)) : ConnState :=
  { stackEntered := true, sessionOpen := true, serverInfo := some stubInfo,
    tools := tools, connected := true,
    transportOpens := 1, initCalls := 1, listCalls := 1, callLog := [] }

/-- A started manager with a failing connection first and a healthy one
second. -/
def c2failConn : Conn := ⟨⟨some "beta"⟩, failEnv, connectedState [("pong", pongTool)]⟩

def c2healthyConn : Conn := ⟨⟨none⟩, goodEnv, connectedState [("ping", pingTool)]⟩

def c2mgr : MgrState := ⟨[c2failConn, c2healthyConn], ".", [], true⟩

/-- A not-yet-started manager whose single connection cannot open its
transport. -/
def badMgr : MgrState := ⟨[⟨⟨none⟩, badEnv, ConnState.fresh⟩], ".", [], false⟩

/-- A connected connection exposing tool `"ping"` under explicit
namespace `"alpha"`, whose `call_tool` oracle is `f`. -/
def c4conn (f : String → Args → Except PyErr CallToolResult) : Conn :=
  ⟨⟨some "alpha"⟩, ⟨.ok (), .ok stubInfo, .ok [pingTool], f⟩,
   connectedState [("ping", pingTool)]⟩

/-- A started manager whose only connection is `c4conn f`, with the
registry produced by `_rebuild_registry`. -/
def c4mgr (f : String → Args → Except PyErr CallToolResult) : MgrState :=
  McpSessionManager.rebuild_registry ⟨[c4conn f], ".", [], true⟩

/-- The concrete arguments `{"x": 1}`. -/
def c4args : Args := [("x", PyValue.vInt 1)]

/-- A started manager with an empty registry. -/
def c5mgr : MgrState := ⟨[], ".", [], true⟩

/-- A started manager whose only connection exposes `"search"` under
explicit namespace `"alpha"`. -/
def alphaMgr : MgrState :=
  ⟨[⟨⟨some "alpha"⟩, goodEnv, connectedState [("search", searchTool)]⟩], ".", [], true⟩

/-- A manager with two connections that both expose a tool `"echo"` and
report the same server name, forcing a base-name collision. -/
def echoMgr : MgrState :=
  ⟨[⟨⟨none⟩, goodEnv, connectedState [("echo", echoTool)]⟩,
    ⟨⟨none⟩, goodEnv, connectedState [("echo", echoTool)]⟩], ".", [], true⟩

/-- A one-dict heap holding a tool cache (for the reference-semantics
fixtures). -/
def c9heapT : PyDictHeap Tool := ⟨[[("ping", pingTool)]]⟩

/-- A one-dict heap holding a registry. -/
def c9heapD : PyDictHeap McpToolDescriptor :=
  ⟨[[("ping", ⟨"ping", "ping", 0, pingTool, some stubInfo⟩)]]⟩

/-! ## Lemmas about decimal rendering -/

theorem ofRevDigits_decRevDigits (fuel n : Nat) (h : n ≤ fuel) :
    ofRevDigits (decRevDigits fuel n) = n := by
  induction fuel generalizing n with
  | zero =>
    interval_cases n
    simp [decRevDigits, ofRevDigits]
  | succ fuel ih =>
    match n with
    | 0 => simp [decRevDigits, ofRevDigits]
    | n + 1 =>
      have hdiv : (n + 1) / 10 ≤ fuel := by
        have h1 : (n + 1) / 10 < n + 1 := Nat.div_lt_self (Nat.succ_pos n) (by omega)
        omega
      simp only [decRevDigits, ofRevDigits, ih _ hdiv]
      omega

theorem decRevDigits_lt (fuel n : Nat) : ∀ d ∈ decRevDigits fuel n, d < 10 := by
  induction fuel generalizing n with
  | zero => simp [decRevDigits]
  | succ fuel ih =>
    match n with
    | 0 => simp [decRevDigits]
    | n + 1 =>
      intro d hd
      simp only [decRevDigits, List.mem_cons] at hd
      rcases hd with h | h
      · subst h; exact Nat.mod_lt _ (by omega)
      · exact ih _ d h

theorem decDigitChar_inj : ∀ d₁ < 10, ∀ d₂ < 10,
    decDigitChar d₁ = decDigitChar d₂ → d₁ = d₂ := by decide

theorem map_decDigitChar_inj : ∀ (l₁ l₂ : List Nat), (∀ d ∈ l₁, d < 10) →
    (∀ d ∈ l₂, d < 10) → l₁.map decDigitChar = l₂.map decDigitChar → l₁ = l₂ := by
  intro l₁
  induction l₁ with
  | nil => intro l₂ _ _ h; cases l₂ <;> simp at h ⊢
  | cons d ds ih =>
    intro l₂ h₁ h₂ h
    cases l₂ with
    | nil => simp at h
    | cons e es =>
      simp only [List.map_cons, List.cons.injEq] at h
      have hd : d = e := decDigitChar_inj d (h₁ d (by simp)) e (h₂ e (by simp)) h.1
      have hds : ds = es := ih es (fun x hx => h₁ x (by simp [hx]))
        (fun x hx => h₂ x (by simp [hx])) h.2
      rw [hd, hds]

theorem ofRevDigits_decDigitsOf (n : Nat) : ofRevDigits (decDigitsOf n) = n := by
  by_cases hn : n = 0
  · simp [decDigitsOf, hn, ofRevDigits]
  · simp only [decDigitsOf, if_neg hn]
    exact ofRevDigits_decRevDigits n n le_rfl

theorem decDigitsOf_lt (n : Nat) : ∀ d ∈ decDigitsOf n, d < 10 := by
  by_cases hn : n = 0
  · simp [decDigitsOf, hn]
  · simp only [decDigitsOf, if_neg hn]
    exact decRevDigits_lt n n

theorem natDecimal_inj : Function.Injective natDecimal := by
  intro m n h
  have hdata : (decDigitsOf m).reverse.map decDigitChar =
      (decDigitsOf n).reverse.map decDigitChar := by
    have := congrArg String.data h
    simpa [natDecimal] using this
  have hdigits : decDigitsOf m = decDigitsOf n := by
    have hrev : (decDigitsOf m).reverse = (decDigitsOf n).reverse :=
      map_decDigitChar_inj _ _
        (fun d hd => decDigitsOf_lt m d (List.mem_reverse.mp hd))
        (fun d hd => decDigitsOf_lt n d (List.mem_reverse.mp hd)) hdata
    exact List.reverse_injective hrev
  calc m = ofRevDigits (decDigitsOf m) := (ofRevDigits_decDigitsOf m).symm
    _ = ofRevDigits (decDigitsOf n) := by rw [hdigits]
    _ = n := ofRevDigits_decDigitsOf n

/-! ## Lemmas about `_dedupe_name` -/

theorem hashName_inj (c : String) {k₁ k₂ : Nat}
    (h : hashName c k₁ = hashName c k₂) : k₁ = k₂ := by
  have hd := congrArg String.data h
  simp only [hashName, String.data_append, List.append_assoc,
    List.append_cancel_left_eq] at hd
  exact natDecimal_inj (congrArg String.mk hd)

theorem exists_free_hashName (c : String) (taken : List String) (start : Nat) :
    ∃ k, start ≤ k ∧ k < start + taken.length + 1 ∧ hashName c k ∉ taken := by
  by_contra hcon
  push_neg at hcon
  set f : Fin (taken.length + 1) → String := fun i => hashName c (start + i) with hf
  have hinj : Function.Injective f := by
    intro i j hij
    have := hashName_inj c hij
    exact Fin.ext (by omega)
  have hsub : Finset.univ.image f ⊆ taken.toFinset := by
    intro x hx
    simp only [Finset.mem_image, Finset.mem_univ, true_and] at hx
    obtain ⟨i, rfl⟩ := hx
    exact List.mem_toFinset.mpr
      (hcon (start + i) (by omega) (by have := i.isLt; omega))
  have h1 : (Finset.univ.image f).card = taken.length + 1 := by
    rw [Finset.card_image_of_injective _ hinj, Finset.card_univ, Fintype.card_fin]
  have h2 := Finset.card_le_card hsub
  have h3 : taken.toFinset.card ≤ taken.length := taken.toFinset_card_le
  omega

theorem dedupeAux_spec (c : String) (taken : List String) :
    ∀ (fuel start : Nat), (∃ k, start ≤ k ∧ k < start + fuel ∧ hashName c k ∉ taken) →
    ∃ k, McpSessionManager.dedupeAux c taken fuel start = hashName c k ∧
      start ≤ k ∧ hashName c k ∉ taken ∧
      ∀ j, start ≤ j → j < k → hashName c j ∈ taken := by
  intro fuel
  induction fuel with
  | zero =>
    rintro start ⟨k, h1, h2, _⟩
    omega
  | succ fuel ih =>
    rintro start ⟨k, hk1, hk2, hk3⟩
    by_cases hmem : hashName c start ∈ taken
    · have hmem' : (c ++ "#" ++ natDecimal start) ∈ taken := hmem
      have hkstart : k ≠ start := fun h => hk3 (h ▸ hmem)
      obtain ⟨k', hEq, hk'1, hk'2, hk'3⟩ :=
        ih (start + 1) ⟨k, by omega, by omega, hk3⟩
      refine ⟨k', ?_, by omega, hk'2, ?_⟩
      · simpa [McpSessionManager.dedupeAux, hmem'] using hEq
      · intro j hj1 hj2
        rcases Nat.eq_or_lt_of_le hj1 with h | h
        · exact h ▸ hmem
        · exact hk'3 j h hj2
    · have hmem' : (c ++ "#" ++ natDecimal start) ∉ taken := hmem
      refine ⟨start, ?_, le_rfl, hmem, fun j hj1 hj2 => by omega⟩
      simp [McpSessionManager.dedupeAux, hmem', hashName]

theorem dedupe_name_of_not_mem {c : String} {taken : List String}
    (h : c ∉ taken) : McpSessionManager.dedupe_name c taken = c := by
  simp [McpSessionManager.dedupe_name, h]

theorem dedupe_name_spec_mem {c : String} {taken : List String} (h : c ∈ taken) :
    ∃ k, 1 ≤ k ∧ McpSessionManager.dedupe_name c taken = hashName c k ∧
      hashName c k ∉ taken ∧ ∀ j, 1 ≤ j → j < k → hashName c j ∈ taken := by
  obtain ⟨k, h1, h2, h3⟩ := exists_free_hashName c taken 1
  obtain ⟨k', hEq, hk'1, hk'2, hk'3⟩ :=
    dedupeAux_spec c taken (taken.length + 1) 1 ⟨k, h1, by omega, h3⟩
  refine ⟨k', hk'1, ?_, hk'2, hk'3⟩
  simpa [McpSessionManager.dedupe_name, h] using hEq

theorem dedupe_name_not_mem (c : String) (taken : List String) :
    McpSessionManager.dedupe_name c taken ∉ taken := by
  by_cases h : c ∈ taken
  · obtain ⟨k, _, hEq, h3, _⟩ := dedupe_name_spec_mem h
    rw [hEq]; exact h3
  · rw [dedupe_name_of_not_mem h]; exact h

/-! ## Lemmas about `_rebuild_registry` -/

theorem dictInsert_of_not_mem (d : List (String × α)) (k : String) (v : α)
    (h : k ∉ dictKeys d) : dictInsert d k v = d ++ [(k, v)] := by
  have hany : d.any (fun p => p.1 = k) = false := by
    rw [List.any_eq_false]
    intro p hp
    simp only [decide_eq_true_eq]
    intro hpk
    exact h (List.mem_map.mpr ⟨p, hp, hpk⟩)
  simp [dictInsert, hany]

theorem regInsertTool_inv (sep : String) (ns : Option String) (cidx : Nat)
    (si : Option Implementation)
    (acc : List (String × McpToolDescriptor) × List String) (kv : String × Tool)
    (hnodup : (dictKeys acc.1).Nodup) (hsub : ∀ x ∈ dictKeys acc.1, x ∈ acc.2) :
    (dictKeys (McpSessionManager.regInsertTool sep ns cidx si acc kv).1).Nodup ∧
    (∀ x ∈ dictKeys (McpSessionManager.regInsertTool sep ns cidx si acc kv).1,
      x ∈ (McpSessionManager.regInsertTool sep ns cidx si acc kv).2) ∧
    (McpSessionManager.regInsertTool sep ns cidx si acc kv).1.length =
      acc.1.length + 1 := by
  have huniq : McpSessionManager.dedupe_name
      (McpSessionManager.compose_name sep ns kv.1) acc.2 ∉ acc.2 :=
    dedupe_name_not_mem _ _
  have hkeys : McpSessionManager.dedupe_name
      (McpSessionManager.compose_name sep ns kv.1) acc.2 ∉ dictKeys acc.1 :=
    fun hx => huniq (hsub _ hx)
  simp only [McpSessionManager.regInsertTool, dictInsert_of_not_mem _ _ _ hkeys]
  refine ⟨?_, ?_, by simp⟩
  · simp only [dictKeys, List.map_append, List.map_cons, List.map_nil]
    rw [List.nodup_append]
    refine ⟨hnodup, List.nodup_singleton _, ?_⟩
    intro a ha hb
    rw [List.mem_singleton] at hb
    subst hb
    exact hkeys ha
  · intro x hx
    simp only [dictKeys, List.map_append, List.map_cons, List.map_nil,
      List.mem_append, List.mem_singleton] at hx
    rcases hx with hx | hx
    · exact List.mem_append_left _ (hsub x hx)
    · exact List.mem_append_right _ (by simp [hx])

theorem foldl_regInsertTool_inv (sep : String) (ns : Option String) (cidx : Nat)
    (si : Option Implementation) :
    ∀ (tools : List (String × Tool))
      (acc : List (String × McpToolDescriptor) × List String),
    (dictKeys acc.1).Nodup → (∀ x ∈ dictKeys acc.1, x ∈ acc.2) →
    (dictKeys (tools.foldl (McpSessionManager.regInsertTool sep ns cidx si) acc).1).Nodup ∧
    (∀ x ∈ dictKeys (tools.foldl (McpSessionManager.regInsertTool sep ns cidx si) acc).1,
      x ∈ (tools.foldl (McpSessionManager.regInsertTool sep ns cidx si) acc).2) ∧
    (tools.foldl (McpSessionManager.regInsertTool sep ns cidx si) acc).1.length =
      acc.1.length + tools.length := by
  intro tools
  induction tools with
  | nil => intro acc h1 h2; exact ⟨h1, h2, by simp⟩
  | cons kv rest ih =>
    intro acc h1 h2
    obtain ⟨g1, g2, g3⟩ := regInsertTool_inv sep ns cidx si acc kv h1 h2
    obtain ⟨r1, r2, r3⟩ :=
      ih (McpSessionManager.regInsertTool sep ns cidx si acc kv) g1 g2
    refine ⟨r1, r2, ?_⟩
    simp only [List.foldl_cons]
    rw [r3, g3, List.length_cons]
    omega

theorem foldl_regInsertConn_inv (sep : String) :
    ∀ (ics : List (Nat × Conn))
      (acc : List (String × McpToolDescriptor) × List String),
    (dictKeys acc.1).Nodup → (∀ x ∈ dictKeys acc.1, x ∈ acc.2) →
    (dictKeys (ics.foldl (McpSessionManager.regInsertConn sep) acc).1).Nodup ∧
    (∀ x ∈ dictKeys (ics.foldl (McpSessionManager.regInsertConn sep) acc).1,
      x ∈ (ics.foldl (McpSessionManager.regInsertConn sep) acc).2) ∧
    (ics.foldl (McpSessionManager.regInsertConn sep) acc).1.length =
      acc.1.length + (ics.map (fun ic => ic.2.st.tools.length)).sum := by
  intro ics
  induction ics with
  | nil => intro acc h1 h2; exact ⟨h1, h2, by simp⟩
  | cons ic rest ih =>
    intro acc h1 h2
    obtain ⟨g1, g2, g3⟩ := foldl_regInsertTool_inv sep
      (McpConnection.namespaceOf ic.2.cfg ic.2.st) ic.1 ic.2.st.serverInfo
      ic.2.st.tools acc h1 h2
    obtain ⟨r1, r2, r3⟩ := ih (McpSessionManager.regInsertConn sep acc ic) g1 g2
    refine ⟨r1, r2, ?_⟩
    simp only [List.foldl_cons, List.map_cons, List.sum_cons] at r3 ⊢
    rw [r3]
    simp only [McpSessionManager.regInsertConn]
    omega

theorem rebuild_registry_keys_nodup (m : MgrState) :
    (dictKeys (McpSessionManager.rebuild_registry m).tool_registry).Nodup := by
  obtain ⟨h1, _, _⟩ := foldl_regInsertConn_inv m.name_separator
    m.connections.enum ([], []) (by simp [dictKeys]) (by simp [dictKeys])
  simpa [McpSessionManager.rebuild_registry] using h1

theorem rebuild_registry_length (m : MgrState) :
    (McpSessionManager.rebuild_registry m).tool_registry.length =
      (m.connections.map (fun c => c.st.tools.length)).sum := by
  obtain ⟨_, _, h3⟩ := foldl_regInsertConn_inv m.name_separator
    m.connections.enum ([], []) (by simp [dictKeys]) (by simp [dictKeys])
  simp only [McpSessionManager.rebuild_registry]
  rw [h3]
  have : m.connections.enum.map (fun ic => ic.2.st.tools.length) =
      m.connections.map (fun c => c.st.tools.length) := by
    have hsnd := List.enum_map_snd m.connections
    calc m.connections.enum.map (fun ic => ic.2.st.tools.length)
        = (m.connections.enum.map Prod.snd).map (fun c => c.st.tools.length) := by
          rw [List.map_map]; rfl
      _ = m.connections.map (fun c => c.st.tools.length) := by rw [hsnd]
  rw [this]
  simp

/-! ## Heap lemmas -/

theorem copyDict_spec (h : PyDictHeap α) (r : Nat) (k : String) (v : α)
    (hr : r < h.store.length) :
    ((h.copyDict r).2.setItem (h.copyDict r).1 k v).get r = h.get r ∧
    (h.copyDict r).2.get (h.copyDict r).1 = h.get r ∧
    ((h.copyDict r).2.copyDict r).2.get ((h.copyDict r).2.copyDict r).1 =
      (h.copyDict r).2.get (h.copyDict r).1 := by
  have hget : (h.copyDict r).2.get r = h.get r := by
    simp only [PyDictHeap.copyDict, PyDictHeap.get]
    rw [List.get?_append hr]
  have hfresh : (h.copyDict r).2.get (h.copyDict r).1 = h.get r := by
    simp only [PyDictHeap.copyDict, PyDictHeap.get]
    rw [List.get?_concat_length]
    rfl
  refine ⟨?_, hfresh, ?_⟩
  · simp only [PyDictHeap.copyDict, PyDictHeap.setItem, PyDictHeap.get]
    rw [List.get?_set_ne _ _ (by omega)]
    rw [List.get?_append hr]
  · have hr' : r < (h.copyDict r).2.store.length := by
      simp [PyDictHeap.copyDict]
      omega
    have : ((h.copyDict r).2.copyDict r).2.get ((h.copyDict r).2.copyDict r).1 =
        (h.copyDict r).2.get r := by
      simp only [PyDictHeap.copyDict, PyDictHeap.get]
      rw [List.get?_concat_length]
      rfl
    rw [this, hget, hfresh]

/-! ## Lemmas about `McpConnection.connect` -/

theorem connect_recursion (env : ConnEnv) (info : Implementation)
    (hT : env.transport = .ok ()) (hH : env.handshake = .ok info) :
    ∀ (fuel : Nat) (s : ConnState), s.connected = false →
    (McpConnection.connect env fuel s).1 = .error .recursionError ∧
    (McpConnection.connect env fuel s).2.initCalls = s.initCalls + fuel ∧
    (McpConnection.connect env fuel s).2.connected = false := by
  intro fuel
  induction fuel with
  | zero =>
    intro s hs
    simp [McpConnection.connect, hs]
  | succ fuel ih =>
    intro s hs
    simp only [McpConnection.connect, hs, hT, hH, Bool.false_eq_true, if_false]
    rcases hp : McpConnection.connect env fuel
        { stackEntered := true, sessionOpen := true, serverInfo := some info,
          tools := s.tools, connected := false,
          transportOpens := s.transportOpens + 1, initCalls := s.initCalls + 1,
          listCalls := s.listCalls, callLog := s.callLog } with ⟨res, s4⟩
    obtain ⟨e1, e2, e3⟩ := ih
      { stackEntered := true, sessionOpen := true, serverInfo := some info,
        tools := s.tools, connected := false,
        transportOpens := s.transportOpens + 1, initCalls := s.initCalls + 1,
        listCalls := s.listCalls, callLog := s.callLog } rfl
    rw [hp] at e1 e2 e3
    simp only at e1 e2 e3
    subst e1
    refine ⟨rfl, ?_, rfl⟩
    simp only [McpConnection.close]
    omega

theorem shutdown_connected_false (cs : List Conn) :
    ∀ c ∈ McpSessionManager.shutdown_connections cs, c.st.connected = false := by
  intro c hc
  simp only [McpSessionManager.shutdown_connections, List.mem_map] at hc
  obtain ⟨c₀, _, rfl⟩ := hc
  rfl

/-! ## Claim theorems -/

/-- C1 (refuting the claim as the code stands): for every environment in
which the transport open and the protocol handshake succeed, `connect()`
on a fresh (not yet connected) connection never returns successfully:
`refresh_tools`'s `_require_session` re-enters `connect` before
`_connected` has been set, so the handshake runs once per available
recursion level (`initCalls = fuel`, where `fuel` models the
interpreter's recursion limit) and the call ends in `RecursionError`
with the connection closed — rather than performing the handshake
exactly once and returning with `is_connected = true`. -/
theorem claim_c1_connect_recurses (env : ConnEnv) (info : Implementation)
    (hT : env.transport = .ok ()) (hH : env.handshake = .ok info) (fuel : Nat) :
    (McpConnection.connect env fuel ConnState.fresh).1 = .error .recursionError ∧
    (McpConnection.connect env fuel ConnState.fresh).2.initCalls = fuel ∧
    (McpConnection.connect env fuel ConnState.fresh).2.connected = false := by
  have h := connect_recursion env info hT hH fuel ConnState.fresh rfl
  simpa [ConnState.fresh] using h

/-- Witness for C1 in a concrete all-healthy environment with recursion
budget 5: five handshakes, then `RecursionError`. -/
theorem claim_c1_connect_recurses_witness :
    goodEnv.transport = .ok () ∧ goodEnv.handshake = .ok stubInfo ∧
    (McpConnection.connect goodEnv 5 ConnState.fresh).1 = .error .recursionError ∧
    (McpConnection.connect goodEnv 5 ConnState.fresh).2.initCalls = 5 :=
  ⟨rfl, rfl, (claim_c1_connect_recurses goodEnv stubInfo rfl rfl 5).1,
   (claim_c1_connect_recurses goodEnv stubInfo rfl rfl 5).2.1⟩

/-- C3: if any connection fails to connect during `start()`, then after
`start()` raises, every connection reports `is_connected = false` (all
connections touched by this start were shut down before the error
propagated) and the manager is not marked started. -/
theorem claim_c3_start_all_or_nothing (fuel : Nat) (m : MgrState) (e : PyErr)
    (m' : MgrState) (h : McpSessionManager.start fuel m = (.error e, m')) :
    (∀ c ∈ m'.connections, c.st.connected = false) ∧ m'.started = false := by
  by_cases hs : m.started = true
  · simp [McpSessionManager.start, hs] at h
  · simp only [McpSessionManager.start, hs, if_false] at h
    rcases hc : McpSessionManager.connectAll fuel m.connections with ⟨res, cs⟩
    rw [hc] at h
    cases res with
    | error e' =>
      have h2 : ({ connections := McpSessionManager.shutdown_connections cs,
                   name_separator := m.name_separator,
                   tool_registry := m.tool_registry,
                   started := false } : MgrState) = m' :=
        congrArg Prod.snd h
      subst h2
      exact ⟨shutdown_connected_false cs, rfl⟩
    | ok u =>
      simp at h

/-- Witness for C3: a manager whose single connection cannot open its
transport. -/
theorem claim_c3_start_all_or_nothing_witness :
    McpSessionManager.start 1 badMgr =
      (.error (.runtimeError "boom"), (McpSessionManager.start 1 badMgr).2) ∧
    (∀ c ∈ (McpSessionManager.start 1 badMgr).2.connections,
      c.st.connected = false) ∧
    (McpSessionManager.start 1 badMgr).2.started = false := by
  have h : McpSessionManager.start 1 badMgr =
      (.error (.runtimeError "boom"), (McpSessionManager.start 1 badMgr).2) := rfl
  exact ⟨h, (claim_c3_start_all_or_nothing 1 badMgr _ _ h).1,
    (claim_c3_start_all_or_nothing 1 badMgr _ _ h).2⟩

/-- C8: for every `McpConnection` state, `close()` does not raise (in
particular when the transport was never opened), always leaves the
connection with server identity cleared, tool cache empty, session gone
and `is_connected = false`, and is safe to call multiple times: a second
call is a no-op producing the same result and state. -/
theorem claim_c8_close_safe (s : ConnState) :
    (McpConnection.close s).1 = .ok () ∧
    (McpConnection.close s).2.serverInfo = none ∧
    (McpConnection.close s).2.tools = [] ∧
    (McpConnection.close s).2.connected = false ∧
    (McpConnection.close s).2.sessionOpen = false ∧
    McpConnection.close (McpConnection.close s).2 = McpConnection.close s :=
  ⟨rfl, rfl, rfl, rfl, rfl, rfl⟩

/-- C10: `McpSseServerConfig` validation fails whenever the (effective)
`timeout` is below `0.1` or the (effective) `sse_read_timeout` is below
`1.0`, and succeeds with the defaults `timeout = 5.0` and
`sse_read_timeout = 300.0` when both fields are omitted. -/
theorem claim_c10_sse_validation (url : String) (t? s? : Option ℚ) :
    ((t?.getD 5 < 1/10 ∨ s?.getD 300 < 1) →
      isErr (McpSseServerConfig.validate url t? s?) = true) ∧
    McpSseServerConfig.validate url none none =
      .ok ⟨none, url, none, 5, 300⟩ := by
  constructor
  · intro h
    simp only [McpSseServerConfig.validate]
    rcases h with h | h
    · rw [if_pos h]; rfl
    · by_cases ht : t?.getD 5 < 1/10
      · rw [if_pos ht]; rfl
      · rw [if_neg ht, if_pos h]; rfl
  · have h1 : ¬((5 : ℚ) < 1/10) := by norm_num
    have h2 : ¬((300 : ℚ) < 1) := by norm_num
    simp only [McpSseServerConfig.validate, Option.getD_none]
    rw [if_neg h1, if_neg h2]

/-- Witness for C10 at a concrete input: `timeout = 0` is rejected. -/
theorem claim_c10_sse_validation_witness :
    ((some (0 : ℚ)).getD 5 < 1/10 ∨ (none : Option ℚ).getD 300 < 1) ∧
    isErr (McpSseServerConfig.validate "http://localhost" (some 0) none) = true := by
  have h : (some (0 : ℚ)).getD 5 < 1/10 ∨ (none : Option ℚ).getD 300 < 1 :=
    Or.inl (by norm_num)
  exact ⟨h, (claim_c10_sse_validation "http://localhost" (some 0) none).1 h⟩

/-- C2 (refuting the claim as the code stands): `refresh()` is fail-fast,
not aggregate. On a started manager whose first connection's
`list_tools` fails and whose second is healthy, `refresh()` raises the
first connection's raw error (no aggregate error type exists in
`connection.py`), the healthy second connection is never attempted (its
ghost `listCalls` counter stays at its initial value 1 while the failing
one moved from 1 to 2), no tool cache changes, and the registry is not
rebuilt. -/
theorem claim_c2_refresh_fail_fast :
    (McpSessionManager.refresh 1 c2mgr).1 = .error (.runtimeError "boom") ∧
    (c2mgr.connections.map (fun c => c.st.listCalls)) = [1, 1] ∧
    ((McpSessionManager.refresh 1 c2mgr).2.connections.map
      (fun c => c.st.listCalls)) = [2, 1] ∧
    ((McpSessionManager.refresh 1 c2mgr).2.connections.map
      (fun c => c.st.tools)) = [[("pong", pongTool)], [("ping", pingTool)]] ∧
    (McpSessionManager.refresh 1 c2mgr).2.tool_registry = c2mgr.tool_registry :=
  ⟨rfl, rfl, rfl, rfl, rfl⟩

/-- C4 (against the spec-modelled `invoke_tool`): on a manager whose only
connection exposes tool `"ping"` under namespace `"alpha"` and whose
`call_tool` returns `r`, `invoke_tool("alpha.ping", {"x": 1})` performs
exactly one underlying `call_tool` on that connection with original name
`"ping"` and args `{"x": 1}` (the ghost call log), and returns exactly
`r`. -/
theorem claim_c4_invoke_round_trip (r : CallToolResult) :
    (McpSessionManager.invoke_tool 1 (c4mgr (fun _ _ => .ok r))
        "alpha.ping" c4args true).1 = .ok r ∧
    ((McpSessionManager.invoke_tool 1 (c4mgr (fun _ _ => .ok r))
        "alpha.ping" c4args true).2.connections.map (fun c => c.st.callLog)) =
      [[("ping", c4args)]] :=
  ⟨rfl, rfl⟩

/-- C5: on a started manager, `invoke_tool` with an exposed name absent
from the current registry raises the tool-not-found error, and that error
carries the requested name; the manager state is untouched. -/
theorem claim_c5_tool_not_found (fuel : Nat) (m : MgrState) (name : String)
    (args : Args) (h1 : m.started = true)
    (h2 : dictGet m.tool_registry name = none) :
    McpSessionManager.invoke_tool fuel m name args true =
      (.error (.toolNotFound name), m) := by
  simp [McpSessionManager.invoke_tool, h1, h2]

/-- Witness for C5: `invoke_tool("missing", {})` on a started manager
with an empty registry. -/
theorem claim_c5_tool_not_found_witness :
    c5mgr.started = true ∧ dictGet c5mgr.tool_registry "missing" = none ∧
    McpSessionManager.invoke_tool 1 c5mgr "missing" [] true =
      (.error (.toolNotFound "missing"), c5mgr) :=
  ⟨rfl, rfl, claim_c5_tool_not_found 1 c5mgr "missing" [] rfl rfl⟩

/-- C6: in every registry rebuild, each physical tool yields exactly one
descriptor (the registry size equals the total number of cached tools
across connections) and all registry keys are unique; and `_dedupe_name`
returns the base name when it is free, otherwise the base name suffixed
`#k` where `k` is the first free suffix in encounter order (every smaller
positive suffix was taken). -/
theorem claim_c6_registry_dedupe (m : MgrState) :
    (dictKeys (McpSessionManager.rebuild_registry m).tool_registry).Nodup ∧
    (McpSessionManager.rebuild_registry m).tool_registry.length =
      (m.connections.map (fun c => c.st.tools.length)).sum ∧
    (∀ (c : String) (taken : List String), c ∉ taken →
      McpSessionManager.dedupe_name c taken = c) ∧
    (∀ (c : String) (taken : List String), c ∈ taken → ∃ k, 1 ≤ k ∧
      McpSessionManager.dedupe_name c taken = hashName c k ∧
      hashName c k ∉ taken ∧ ∀ j, 1 ≤ j → j < k → hashName c j ∈ taken) :=
  ⟨rebuild_registry_keys_nodup m, rebuild_registry_length m,
   fun _ _ h => dedupe_name_of_not_mem h,
   fun _ _ h => dedupe_name_spec_mem h⟩

/-- Witness for C6: two connections with the same server name and the
same tool name collide; the dedupe facts at concrete inputs. -/
theorem claim_c6_registry_dedupe_witness :
    (dictKeys (McpSessionManager.rebuild_registry echoMgr).tool_registry).Nodup ∧
    ("stub.echo" ∉ ([] : List String)) ∧
    McpSessionManager.dedupe_name "stub.echo" [] = "stub.echo" ∧
    ("stub.echo" ∈ ["stub.echo"]) ∧
    (∃ k, 1 ≤ k ∧
      McpSessionManager.dedupe_name "stub.echo" ["stub.echo"] =
        hashName "stub.echo" k ∧
      hashName "stub.echo" k ∉ (["stub.echo"] : List String) ∧
      ∀ j, 1 ≤ j → j < k → hashName "stub.echo" j ∈ (["stub.echo"] : List String)) :=
  ⟨(claim_c6_registry_dedupe echoMgr).1, by decide,
   (claim_c6_registry_dedupe echoMgr).2.2.1 "stub.echo" [] (by decide), by decide,
   (claim_c6_registry_dedupe echoMgr).2.2.2 "stub.echo" ["stub.echo"] (by decide)⟩

/-- C7: the base exposed name is `namespace + separator + original_name`
when a namespace is known — the explicit (non-empty) config namespace if
set, else the server's self-reported name, else no prefix — and a
connection with explicit namespace `"alpha"` and tool `"search"` yields
exactly the key `"alpha.search"` and no bare `"search"` key. -/
theorem claim_c7_namespace_prefixing :
    (∀ (sep ns toolName : String), ¬ns = "" →
      McpSessionManager.compose_name sep (some ns) toolName =
        ns ++ sep ++ toolName) ∧
    (∀ (sep toolName : String),
      McpSessionManager.compose_name sep none toolName = toolName) ∧
    (∀ (cfg : ConnConfig) (s : ConnState) (ns : String),
      cfg.namespace_ = some ns → ¬ns = "" →
      McpConnection.namespaceOf cfg s = some ns) ∧
    (∀ (cfg : ConnConfig) (s : ConnState) (info : Implementation),
      (cfg.namespace_ = none ∨ cfg.namespace_ = some "") →
      s.serverInfo = some info →
      McpConnection.namespaceOf cfg s = some info.name) ∧
    (∀ (cfg : ConnConfig) (s : ConnState),
      (cfg.namespace_ = none ∨ cfg.namespace_ = some "") →
      s.serverInfo = none → McpConnection.namespaceOf cfg s = none) ∧
    dictKeys (McpSessionManager.rebuild_registry alphaMgr).tool_registry =
      ["alpha.search"] ∧
    dictGet (McpSessionManager.rebuild_registry alphaMgr).tool_registry
      "search" = none := by
  refine ⟨?_, ?_, ?_, ?_, ?_, by decide, by decide⟩
  · intro sep ns toolName h
    have hne : ns.isEmpty = false := by
      cases hie : ns.isEmpty with
      | false => rfl
      | true => exact absurd ((String.isEmpty_iff ns).mp hie) h
    have ht : truthyStr (some ns) = true := by simp [truthyStr, hne]
    simp [McpSessionManager.compose_name, ht]
  · intro sep toolName
    rfl
  · intro cfg s ns h1 h2
    have hne : ns.isEmpty = false := by
      cases hie : ns.isEmpty with
      | false => rfl
      | true => exact absurd ((String.isEmpty_iff ns).mp hie) h2
    have ht : truthyStr (some ns) = true := by simp [truthyStr, hne]
    simp [McpConnection.namespaceOf, h1, ht]
  · intro cfg s info h1 h2
    have ht : truthyStr (some "") = false := by decide
    rcases h1 with h1 | h1
    · simp [McpConnection.namespaceOf, truthyStr, h1, h2]
    · simp [McpConnection.namespaceOf, h1, ht, h2]
  · intro cfg s h1 h2
    have ht : truthyStr (some "") = false := by decide
    rcases h1 with h1 | h1
    · simp [McpConnection.namespaceOf, truthyStr, h1, h2]
    · simp [McpConnection.namespaceOf, h1, ht, h2]

/-- Witness for C7 at concrete inputs. -/
theorem claim_c7_namespace_prefixing_witness :
    (¬"alpha" = "") ∧
    McpSessionManager.compose_name "." (some "alpha") "search" = "alpha.search" :=
  ⟨by decide, by
    have h := claim_c7_namespace_prefixing.1 "." "alpha" "search" (by decide)
    simpa using h⟩

/-- C9: `McpConnection.tools` and `McpSessionManager.descriptors` each
return a fresh copy of the internal mapping: mutating the returned dict
leaves the internal dict unchanged, the copy's contents equal the
internal contents, and two successive reads with no intervening operation
return equal mappings. -/
theorem claim_c9_fresh_copies
    (h : PyDictHeap Tool) (r : Nat) (k : String) (v : Tool)
    (g : PyDictHeap McpToolDescriptor) (rg : Nat) (kg : String)
    (vg : McpToolDescriptor)
    (hr : r < h.store.length) (hg : rg < g.store.length) :
    (((McpConnection.toolsCopy h r).2.setItem
        (McpConnection.toolsCopy h r).1 k v).get r = h.get r) ∧
    ((McpConnection.toolsCopy h r).2.get (McpConnection.toolsCopy h r).1 = h.get r) ∧
    ((McpConnection.toolsCopy (McpConnection.toolsCopy h r).2 r).2.get
        (McpConnection.toolsCopy (McpConnection.toolsCopy h r).2 r).1 =
      (McpConnection.toolsCopy h r).2.get (McpConnection.toolsCopy h r).1) ∧
    (((McpSessionManager.descriptorsCopy g rg).2.setItem
        (McpSessionManager.descriptorsCopy g rg).1 kg vg).get rg = g.get rg) ∧
    ((McpSessionManager.descriptorsCopy g rg).2.get
        (McpSessionManager.descriptorsCopy g rg).1 = g.get rg) ∧
    ((McpSessionManager.descriptorsCopy
          (McpSessionManager.descriptorsCopy g rg).2 rg).2.get
        (McpSessionManager.descriptorsCopy
          (McpSessionManager.descriptorsCopy g rg).2 rg).1 =
      (McpSessionManager.descriptorsCopy g rg).2.get
        (McpSessionManager.descriptorsCopy g rg).1) := by
  obtain ⟨t1, t2, t3⟩ := copyDict_spec h r k v hr
  obtain ⟨d1, d2, d3⟩ := copyDict_spec g rg kg vg hg
  exact ⟨t1, t2, t3, d1, d2, d3⟩

/-- Witness for C9 at concrete one-dict heaps. -/
theorem claim_c9_fresh_copies_witness :
    0 < c9heapT.store.length ∧ 0 < c9heapD.store.length ∧
    (((McpConnection.toolsCopy c9heapT 0).2.setItem
        (McpConnection.toolsCopy c9heapT 0).1 "x" pongTool).get 0 = c9heapT.get 0) ∧
    ((McpConnection.toolsCopy c9heapT 0).2.get
        (McpConnection.toolsCopy c9heapT 0).1 = c9heapT.get 0) :=
  ⟨by decide, by decide,
   (claim_c9_fresh_copies c9heapT 0 "x" pongTool c9heapD 0 "y"
      ⟨"y", "y", 0, pongTool, none⟩ (by decide) (by decide)).1,
   (claim_c9_fresh_copies c9heapT 0 "x" pongTool c9heapD 0 "y"
      ⟨"y", "y", 0, pongTool, none⟩ (by decide) (by decide)).2.1⟩

end AdkMcp
